import Mathlib

/-!
Shallow embedding of the file-storage gateway in `src/index.js`: a single
Express application coordinating a Google Cloud Storage bucket (the blob
store) and a Firestore database (the metadata store).  Pure data is modelled
directly; the stateful handlers become explicit state-passing functions, with
fault oracles standing for the points where an `await`ed store call can
reject (throw).  A rejected call has no effect on the stores and transfers
control to the handler's `catch` block, exactly as in the JavaScript source.
-/

set_option autoImplicit false

namespace FileServer

/-- An uploaded multipart file as multer presents it: `file.buffer` (the raw
bytes, modelled as a list of byte values) and `file.mimetype`. -/
structure UploadFile where
  buffer : List Nat
  mimetype : String
  deriving DecidableEq, Repr

/-- A stored blob object in the bucket: its content, the content-type set at
save time, and the `size` field of its object metadata.  `size` is an
`Option` because the statistics handler defensively treats it as possibly
missing (`if (metadata && metadata.size)`). -/
structure Blob where
  content : List Nat
  contentType : String
  size : Option Nat
  deriving DecidableEq, Repr

/-- A Firestore document in the `files` collection, as written by the upload
handler: `{fileName, uploadDate, fileURL}` plus the store-generated id. -/
structure FileRecord where
  id : Nat
  fileName : String
  uploadDate : Nat
  fileURL : String
  deriving DecidableEq, Repr

/-- Combined state of the two stores: the bucket's objects keyed by path, the
`files` collection, the size of the externally populated `downloads`
collection, and the counter generating fresh Firestore document ids. -/
structure State where
  blobs : List (String × Blob)
  records : List FileRecord
  downloads : Nat
  nextId : Nat
  deriving DecidableEq, Repr

/-- Fetch the object stored at `path`, if any (the bucket holds at most one
object per path). -/
def getBlob : List (String × Blob) → String → Option Blob
  | [], _ => none
  | (q, b) :: rest, path => if q = path then some b else getBlob rest path

/-- `fileRef.save(buffer, {contentType})`: store an object at `path`,
silently overwriting any existing object there. -/
def setBlob : List (String × Blob) → String → Blob → List (String × Blob)
  | [], path, b => [(path, b)]
  | (q, c) :: rest, path, b =>
    if q = path then (path, b) :: rest else (q, c) :: setBlob rest path b

/-- Remove the object stored at `path` from the bucket listing. -/
def removeBlob : List (String × Blob) → String → List (String × Blob)
  | [], _ => []
  | (q, c) :: rest, path =>
    if q = path then removeBlob rest path else (q, c) :: removeBlob rest path

/-- `fileRef.getSignedUrl({action: "read", expires: "03-09-2491"})`: the
signed read link for the object at `path`.  Modelled as a pure function of
the path; the constant expiry date plays no role in any handler. -/
def getSignedUrl (path : String) : String :=
  "https://storage.signed/" ++ path

/-- Observable store events, used to state which operations a handler run
actually attempted.  Upload events carry the 0-based index of the
payload/name pair being processed. -/
inductive Ev where
  | blobWrite (idx : Nat) (path : String)
  | signLink (idx : Nat) (path : String)
  | recordAdd (idx : Nat) (name : String)
  | blobDelete (path : String)
  | recordDelete (id : Nat)
  deriving DecidableEq, Repr

/-- The upload pair index an event belongs to, when it is an upload event. -/
def Ev.uploadIdx : Ev → Option Nat
  | .blobWrite i _ => some i
  | .signLink i _ => some i
  | .recordAdd i _ => some i
  | .blobDelete _ => none
  | .recordDelete _ => none

/-- Whether an event is a blob write. -/
def Ev.isBlobWrite : Ev → Bool
  | .blobWrite _ _ => true
  | _ => false

/-- The three `await`ed store calls made for one pair inside the upload
loop, in program order: `fileRef.save`, `fileRef.getSignedUrl`,
`db.collection("files").add`. -/
inductive UploadStep where
  | save
  | sign
  | addRecord
  deriving DecidableEq, Repr

/-- Outcome of `POST /api/upload`: 200 with the collected `fileURLs`,
400 for the validation failure, or 500 from the `catch` block. -/
inductive UploadResult where
  | ok (fileURLs : List String)
  | badRequest
  | serverError
  deriving DecidableEq, Repr

/-- The `for (let i = 0; i < files.length; i++)` loop of the upload handler.
For pair `i` it saves the blob at `files/<name>` with the file's mimetype,
requests a signed URL, pushes it onto `fileURLs`, and adds a
`{fileName, uploadDate, fileURL}` document.  `fault i s = true` means the
`await` of step `s` for pair `i` rejects; the rejection reaches the `catch`
block, which answers 500 and keeps every effect already performed. -/
def uploadLoop (fault : Nat → UploadStep → Bool) (now : Nat) :
    List (UploadFile × String) → Nat → State → List String → List Ev →
    State × List Ev × UploadResult
  | [], _, st, urls, tr => (st, tr, .ok urls)
  | (f, name) :: rest, i, st, urls, tr =>
    let path := "files/" ++ name
    if fault i .save then (st, tr, .serverError)
    else
      let st1 : State :=
        { st with blobs := setBlob st.blobs path ⟨f.buffer, f.mimetype, some f.buffer.length⟩ }
      let tr1 := tr ++ [.blobWrite i path]
      if fault i .sign then (st1, tr1, .serverError)
      else
        let url := getSignedUrl path
        let tr2 := tr1 ++ [.signLink i path]
        if fault i .addRecord then (st1, tr2, .serverError)
        else
          let st2 : State :=
            { st1 with
              records := st1.records ++ [⟨st1.nextId, name, now, url⟩]
              nextId := st1.nextId + 1 }
          uploadLoop fault now rest (i + 1) st2 (urls ++ [url]) (tr2 ++ [.recordAdd i name])

/-- `POST /api/upload`.  The handler first checks
`!files || !fileNames || files.length !== fileNames.length` and answers 400;
with both arrays present (an empty array is truthy in JavaScript, so empty
batches pass this check) the only rejecting condition is the length
mismatch.  Then the loop runs inside `try`, and on full success the handler
answers 200 with all collected links. -/
def upload (fault : Nat → UploadStep → Bool) (now : Nat)
    (files : List UploadFile) (names : List String) (st : State) :
    State × List Ev × UploadResult :=
  if files.length ≠ names.length then (st, [], .badRequest)
  else uploadLoop fault now (files.zip names) 0 st [] []

/-- A fault oracle under which every store call succeeds. -/
def noUploadFault : Nat → UploadStep → Bool := fun _ _ => false

/-- The state change the upload loop performs for one payload/name pair when
all three of its store calls succeed.  `upload` is proved equal to a fold of
this function over the input pairs. -/
def commitPair (now : Nat) (st : State) (p : UploadFile × String) : State :=
  let path := "files/" ++ p.2
  { st with
    blobs := setBlob st.blobs path ⟨p.1.buffer, p.1.mimetype, some p.1.buffer.length⟩
    records := st.records ++ [⟨st.nextId, p.2, now, getSignedUrl path⟩]
    nextId := st.nextId + 1 }

/-- The trace of events a fully successful run of the upload loop emits,
starting at pair index `i0`. -/
def commitTrace (i0 : Nat) : List (UploadFile × String) → List Ev
  | [] => []
  | p :: rest =>
    .blobWrite i0 ("files/" ++ p.2) :: .signLink i0 ("files/" ++ p.2) ::
      .recordAdd i0 p.2 :: commitTrace (i0 + 1) rest

/-- The Firestore documents a fully successful upload of `names` appends,
with ids generated from `id0`. -/
def mkRecords (id0 now : Nat) : List String → List FileRecord
  | [] => []
  | name :: rest =>
    ⟨id0, name, now, getSignedUrl ("files/" ++ name)⟩ :: mkRecords (id0 + 1) now rest

/-- One element of the `GET /api/files` response: the record's fields with
`uploadDate` converted to a display string by
`data.uploadDate.toDate().toLocaleString()`. -/
structure ListEntry where
  id : Nat
  fileName : String
  uploadDate : String
  fileURL : String
  deriving DecidableEq, Repr

/-- Rendering of a stored timestamp by `toDate().toLocaleString()`, modelled
as an injective pure print of the stored instant. -/
def displayDate (t : Nat) : String :=
  toString t

/-- `GET /api/files`: map every document of the `files` collection to a
response entry.  Pure read; the blob store is never consulted. -/
def listFiles (st : State) : List ListEntry :=
  st.records.map fun r => ⟨r.id, r.fileName, displayDate r.uploadDate, r.fileURL⟩

/-- The two `await`ed store calls of the delete handler, in program order:
`fileRef.delete()` then `fileDoc.delete()`. -/
inductive DeleteStep where
  | blobDel
  | recDel
  deriving DecidableEq, Repr

/-- Outcome of `DELETE /api/files/:id`: 200, 404 when the document is
missing, or 500 from the `catch` block. -/
inductive DeleteResult where
  | ok
  | notFound
  | serverError
  deriving DecidableEq, Repr

/-- `DELETE /api/files/:id`.  The handler reads the Firestore document; a
missing document (`!fileData`) answers 404.  Otherwise it awaits
`fileRef.delete()` on `files/<fileData.fileName>` and then
`fileDoc.delete()`.  A Cloud Storage `File.delete` call rejects with a 404
`ApiError` when no object exists at the path (the handler passes no
`ignoreNotFound` option), so the blob-delete step fails either on an
injected fault or on a missing object; any rejection reaches the `catch`
block, which answers 500 and rolls nothing back. -/
def deleteFile (fault : DeleteStep → Bool) (st : State) (id : Nat) :
    State × List Ev × DeleteResult :=
  match st.records.find? (fun r => r.id == id) with
  | none => (st, [], .notFound)
  | some r =>
    let path := "files/" ++ r.fileName
    if fault .blobDel || (getBlob st.blobs path).isNone then (st, [], .serverError)
    else
      let st1 : State := { st with blobs := removeBlob st.blobs path }
      if fault .recDel then (st1, [.blobDelete path], .serverError)
      else
        (⟨st1.blobs, st1.records.filter (fun r2 => r2.id ≠ id), st1.downloads, st1.nextId⟩,
         [.blobDelete path, .recordDelete id], .ok)

/-- Result of `GET /api/statistics`.  `storageUsedCentiGB` holds the value
of `(totalUsedBytes / (1024 * 1024 * 1024)).toFixed(2)` scaled by 100: an
amount of gigabytes rounded to two decimal places is exactly an integer
count of hundredths of a gigabyte.  The JavaScript double arithmetic is
modelled by exact rational arithmetic. -/
structure StatsResult where
  totalDownloads : Nat
  storageUsedCentiGB : Nat
  totalFiles : Nat
  deriving DecidableEq, Repr

/-- `(totalUsedBytes / (1024 * 1024 * 1024)).toFixed(2)` as a count of
hundredths of a gigabyte: the nearest integer to `bytes * 100 / 2^30`,
halves rounding up. -/
def toFixed2GB (bytes : Nat) : Nat :=
  (bytes * 200 + 1024 * 1024 * 1024) / (2 * (1024 * 1024 * 1024))

/-- The `for (const file of files)` loop of the statistics handler.  For the
object at position `i` of the listing, `fault i = true` means its
`file.getMetadata()` call rejects; the surrounding per-object `try`/`catch`
logs and moves on.  With metadata in hand, a missing `size` field is also
only logged; otherwise `parseInt(metadata.size, 10)` is added to the
accumulator. -/
def statsLoop (fault : Nat → Bool) : List (String × Blob) → Nat → Nat → Nat
  | [], _, acc => acc
  | (_, b) :: rest, i, acc =>
    if fault i then statsLoop fault rest (i + 1) acc
    else
      match b.size with
      | some s => statsLoop fault rest (i + 1) (acc + s)
      | none => statsLoop fault rest (i + 1) acc

/-- `GET /api/statistics`: the size of the `downloads` collection, the
accumulated bytes of the bucket listing converted to gigabytes with two
decimal places, and the length of the bucket listing. -/
def statistics (fault : Nat → Bool) (st : State) : StatsResult :=
  let totalUsedBytes := statsLoop fault st.blobs 0 0
  ⟨st.downloads, toFixed2GB totalUsedBytes, st.blobs.length⟩

/-- `mimeTypeMapping[contentType]` on a plain-object lookup table: the value
at the first matching key, if any. -/
def lookupTable (table : List (String × String)) (ct : String) : Option String :=
  (table.find? (fun p => p.1 == ct)).map Prod.snd

/-- Accumulator recursion behind `jsSplit`: split a character list at every
occurrence of `sep`, keeping empty segments, exactly as JavaScript's
`String.prototype.split` does with a single-character separator. -/
def jsSplitAux (sep : Char) : List Char → List Char → List (List Char)
  | [], cur => [cur.reverse]
  | c :: rest, cur =>
    if c = sep then cur.reverse :: jsSplitAux sep rest []
    else jsSplitAux sep rest (c :: cur)

/-- JavaScript's `s.split(sep)` for a one-character separator:
`"a/b/c".split("/")` is `["a","b","c"]`, `"a/".split("/")` is `["a",""]`,
and `"data".split("/")` is `["data"]`. -/
def jsSplit (sep : Char) (s : String) : List String :=
  (jsSplitAux sep s.data []).map fun cs => ⟨cs⟩

/-- The format classifier expression
`mimeTypeMapping[contentType] || contentType.split("/")[1]`.  JavaScript's
`||` yields the right operand when the left is falsy (absent key, or an
empty-string label); `split("/")[1]` is `undefined` — modelled as `none` —
when the string contains no `/`. -/
def classifyFormat (table : List (String × String)) (ct : String) : Option String :=
  match lookupTable table ct with
  | some l => if l = "" then (jsSplit '/' ct).get? 1 else some l
  | none => (jsSplit '/' ct).get? 1

/-- Modelled from the spec: the fixed lookup table imported from
`mimeTypes.js`, a file the repository's reviewed sources do not include.
The spec describes it as a fixed table of known MIME types to short labels
(for example mapping media types to extensions); the concrete rows below
are a representative such table, and every general theorem about the
classifier is stated for an arbitrary table. -/
def mimeTypeMapping : List (String × String) :=
  [("application/pdf", "pdf"), ("image/png", "png"), ("image/jpeg", "jpg"),
   ("text/plain", "txt"), ("video/mp4", "mp4"), ("audio/mpeg", "mp3")]

/-- Outcome of `GET /api/file-formats`: 200 with the insertion-ordered
`Array.from(formats.entries())`, or 500 from the `catch` block.  The map key
is `Option String` because the classifier can produce `undefined`, which
JavaScript's `Map` accepts as a key. -/
inductive FormatsResult where
  | ok (formats : List (Option String × Nat))
  | serverError
  deriving DecidableEq, Repr

/-- `formats.set(format, (formats.get(format) || 0) + 1)` on an
insertion-ordered map. -/
def bumpFormat (acc : List (Option String × Nat)) (k : Option String) :
    List (Option String × Nat) :=
  if acc.any (fun p => p.1 = k) then
    acc.map fun p => if p.1 = k then (p.1, p.2 + 1) else p
  else acc ++ [(k, 1)]

/-- The `for (const file of files)` loop of the file-formats handler.  Its
`file.getMetadata()` call is awaited with no per-object `try`/`catch`: a
rejection (`fault i = true`) propagates to the handler's outer `catch`,
which answers 500 and discards the counts accumulated so far.  A falsy
(empty) `contentType` skips the object. -/
def fileFormatsLoop (fault : Nat → Bool) (table : List (String × String)) :
    List (String × Blob) → Nat → List (Option String × Nat) → FormatsResult
  | [], _, acc => .ok acc
  | (_, b) :: rest, i, acc =>
    if fault i then .serverError
    else if b.contentType = "" then fileFormatsLoop fault table rest (i + 1) acc
    else fileFormatsLoop fault table rest (i + 1) (bumpFormat acc (classifyFormat table b.contentType))

/-- `GET /api/file-formats`: classify every listed object's content-type and
count occurrences per label. -/
def fileFormats (fault : Nat → Bool) (table : List (String × String)) (st : State) :
    FormatsResult :=
  fileFormatsLoop fault table st.blobs 0 []

/-- Specification-side reading of the statistics accumulation: the sum of
the sizes of exactly those listed objects whose metadata fetch succeeds and
whose metadata carries a size; every other object contributes nothing. -/
def statsSpecBytes (fault : Nat → Bool) (blobs : List (String × Blob)) : Nat :=
  (blobs.enum.filterMap fun p => if fault p.1 then none else p.2.2.size).sum

end FileServer

namespace FileServer

example :
    upload noUploadFault 5 [⟨[1, 2], "image/png"⟩] ["a.png"] ⟨[], [], 0, 0⟩ =
      (⟨[("files/a.png", ⟨[1, 2], "image/png", some 2⟩)],
        [⟨0, "a.png", 5, "https://storage.signed/files/a.png"⟩], 0, 1⟩,
       [.blobWrite 0 "files/a.png", .signLink 0 "files/a.png", .recordAdd 0 "a.png"],
       .ok ["https://storage.signed/files/a.png"]) := by
  decide

example :
    upload noUploadFault 5 ([] : List UploadFile) ([] : List String) ⟨[], [], 0, 0⟩ =
      (⟨[], [], 0, 0⟩, [], .ok []) := by
  decide

/-! Basic facts about the bucket model. -/

theorem getBlob_setBlob (bs : List (String × Blob)) (p q : String) (b : Blob) :
    getBlob (setBlob bs p b) q = if q = p then some b else getBlob bs q := by
  induction bs with
  | nil =>
    by_cases h : q = p
    · simp [setBlob, getBlob, h]
    · simp [setBlob, getBlob, h, Ne.symm h]
  | cons hd tl ih =>
    obtain ⟨k, c⟩ := hd
    by_cases hk : k = p
    · subst hk
      by_cases h : q = k
      · simp [setBlob, getBlob, h]
      · simp [setBlob, getBlob, h, Ne.symm h]
    · by_cases h : q = k
      · subst h
        simp [setBlob, getBlob, hk, Ne.symm hk]
      · simp [setBlob, getBlob, hk, h, Ne.symm h, ih]

theorem getBlob_removeBlob (bs : List (String × Blob)) (p q : String) :
    getBlob (removeBlob bs p) q = if q = p then none else getBlob bs q := by
  induction bs with
  | nil => simp [removeBlob, getBlob]
  | cons hd tl ih =>
    obtain ⟨k, c⟩ := hd
    by_cases hk : k = p
    · subst hk
      by_cases h : q = k
      · subst h
        simp [removeBlob, getBlob, ih]
      · simp [removeBlob, getBlob, h, Ne.symm h, ih]
    · by_cases h : q = k
      · subst h
        simp [removeBlob, getBlob, hk, Ne.symm hk, ih]
      · simp [removeBlob, getBlob, hk, h, Ne.symm h, ih]

theorem getBlob_setBlob_isSome (bs : List (String × Blob)) (p q : String) (b : Blob)
    (h : (getBlob bs q).isSome = true) : (getBlob (setBlob bs p b) q).isSome = true := by
  rw [getBlob_setBlob]
  by_cases hq : q = p <;> simp [hq, h]

theorem filesPath_inj {a b : String} (h : "files/" ++ a = "files/" ++ b) : a = b := by
  have hd : ("files/" ++ a).data = ("files/" ++ b).data := by rw [h]
  simp only [String.data_append] at hd
  have h2 : a.data = b.data := List.append_cancel_left hd
  cases a
  cases b
  exact congrArg String.mk h2

/-! Structure of the upload loop: a run whose first `front.length` pairs are
fault-free commits `front` pair by pair and then continues on the remaining
pairs with the index, accumulated links and trace advanced accordingly. -/

theorem uploadLoop_append (fault : Nat → UploadStep → Bool) (now : Nat)
    (front rest : List (UploadFile × String)) :
    ∀ (i : Nat) (st : State) (urls : List String) (tr : List Ev),
      (∀ j, j < front.length → ∀ s, fault (i + j) s = false) →
      uploadLoop fault now (front ++ rest) i st urls tr =
        uploadLoop fault now rest (i + front.length) (front.foldl (commitPair now) st)
          (urls ++ front.map fun p => getSignedUrl ("files/" ++ p.2))
          (tr ++ commitTrace i front) := by
  induction front with
  | nil =>
    intro i st urls tr _
    simp [commitTrace]
  | cons p ps ih =>
    intro i st urls tr h
    have h0 : ∀ s, fault i s = false := fun s => by simpa using h 0 (by simp) s
    have hrec : ∀ j, j < ps.length → ∀ s, fault (i + 1 + j) s = false := by
      intro j hj s
      have := h (j + 1) (by simpa using Nat.succ_lt_succ hj) s
      simpa [Nat.add_assoc, Nat.add_comm 1 j] using this
    simp only [List.cons_append, uploadLoop, h0, Bool.false_eq_true, if_false,
      List.append_eq]
    rw [ih (i + 1) _ _ _ hrec]
    simp [commitPair, commitTrace, Nat.add_comm, Nat.add_assoc, Nat.add_left_comm]

theorem foldl_commitPair_records (now : Nat) (pairs : List (UploadFile × String)) :
    ∀ st : State, (pairs.foldl (commitPair now) st).records
      = st.records ++ mkRecords st.nextId now (pairs.map Prod.snd) := by
  induction pairs with
  | nil =>
    intro st
    simp [mkRecords]
  | cons p ps ih =>
    intro st
    simp only [List.foldl_cons, List.map_cons, mkRecords]
    rw [ih]
    simp [commitPair]

theorem foldl_commitPair_nextId (now : Nat) (pairs : List (UploadFile × String)) :
    ∀ st : State, (pairs.foldl (commitPair now) st).nextId = st.nextId + pairs.length := by
  induction pairs with
  | nil =>
    intro st
    simp
  | cons p ps ih =>
    intro st
    rw [List.foldl_cons, ih]
    simp [commitPair]
    omega

theorem mkRecords_length (id0 now : Nat) (nms : List String) :
    (mkRecords id0 now nms).length = nms.length := by
  induction nms generalizing id0 with
  | nil => simp [mkRecords]
  | cons nm rest ih => simp [mkRecords, ih]

theorem mkRecords_mem (now : Nat) (nms : List String) :
    ∀ (id0 j : Nat) (hj : j < nms.length),
      (⟨id0 + j, nms.get ⟨j, hj⟩, now,
        getSignedUrl ("files/" ++ nms.get ⟨j, hj⟩)⟩ : FileRecord) ∈ mkRecords id0 now nms := by
  induction nms with
  | nil =>
    intro id0 j hj
    simp at hj
  | cons nm rest ih =>
    intro id0 j hj
    cases j with
    | zero => simp [mkRecords]
    | succ j' =>
      have hj' : j' < rest.length := by simpa using hj
      have := ih (id0 + 1) j' hj'
      simp only [mkRecords, List.mem_cons]
      right
      have harith : id0 + (j' + 1) = id0 + 1 + j' := by omega
      rw [harith]
      simpa using this

theorem commitTrace_mem (i0 j : Nat) (front : List (UploadFile × String))
    (hj : j < front.length) :
    Ev.blobWrite (i0 + j) ("files/" ++ (front.get ⟨j, hj⟩).2) ∈ commitTrace i0 front
      ∧ Ev.recordAdd (i0 + j) (front.get ⟨j, hj⟩).2 ∈ commitTrace i0 front := by
  induction front generalizing i0 j with
  | nil => simp at hj
  | cons p ps ih =>
    cases j with
    | zero => simp [commitTrace]
    | succ j' =>
      have hj' : j' < ps.length := by simpa using hj
      have := ih (i0 + 1) j' hj'
      have harith : i0 + (j' + 1) = i0 + 1 + j' := by omega
      simp only [commitTrace, List.mem_cons]
      constructor
      · right; right; right
        rw [harith]
        simpa using this.1
      · right; right; right
        rw [harith]
        simpa using this.2

theorem commitTrace_uploadIdx (i0 : Nat) (front : List (UploadFile × String)) :
    ∀ e ∈ commitTrace i0 front, ∃ j, j < front.length ∧ e.uploadIdx = some (i0 + j) := by
  induction front generalizing i0 with
  | nil =>
    intro e he
    simp [commitTrace] at he
  | cons p ps ih =>
    intro e he
    simp only [commitTrace, List.mem_cons] at he
    rcases he with rfl | rfl | rfl | he
    · exact ⟨0, by simp, by simp [Ev.uploadIdx]⟩
    · exact ⟨0, by simp, by simp [Ev.uploadIdx]⟩
    · exact ⟨0, by simp, by simp [Ev.uploadIdx]⟩
    · obtain ⟨j, hj, hidx⟩ := ih (i0 + 1) e he
      exact ⟨j + 1, by simpa using Nat.succ_lt_succ hj, by rw [hidx]; congr 1; omega⟩

theorem commitTrace_countP_blobWrite (i0 : Nat) (front : List (UploadFile × String)) :
    (commitTrace i0 front).countP Ev.isBlobWrite = front.length := by
  induction front generalizing i0 with
  | nil => simp [commitTrace]
  | cons p ps ih =>
    simp [commitTrace, List.countP_cons, Ev.isBlobWrite, ih]

theorem getBlob_commitPair_isSome (now : Nat) (st : State) (p : UploadFile × String)
    (q : String) (h : (getBlob st.blobs q).isSome = true) :
    (getBlob (commitPair now st p).blobs q).isSome = true := by
  simpa [commitPair] using getBlob_setBlob_isSome st.blobs ("files/" ++ p.2) q _ h

theorem getBlob_foldl_commitPair_isSome (now : Nat) (pairs : List (UploadFile × String)) :
    ∀ (st : State) (q : String), (getBlob st.blobs q).isSome = true →
      (getBlob ((pairs.foldl (commitPair now) st)).blobs q).isSome = true := by
  induction pairs with
  | nil =>
    intro st q h
    simpa using h
  | cons p ps ih =>
    intro st q h
    exact ih (commitPair now st p) q (getBlob_commitPair_isSome now st p q h)

theorem getBlob_foldl_commitPair_pair (now : Nat) (front : List (UploadFile × String))
    (j : Nat) (hj : j < front.length) :
    ∀ st : State,
      (getBlob ((front.foldl (commitPair now) st)).blobs
        ("files/" ++ (front.get ⟨j, hj⟩).2)).isSome = true := by
  induction front generalizing j with
  | nil => simp at hj
  | cons p ps ih =>
    intro st
    cases j with
    | zero =>
      rw [List.foldl_cons]
      apply getBlob_foldl_commitPair_isSome
      simp [commitPair, getBlob_setBlob]
    | succ j' =>
      have hj' : j' < ps.length := by simpa using hj
      rw [List.foldl_cons]
      simpa using ih j' hj' (commitPair now st p)

theorem upload_eq_uploadLoop (fault : Nat → UploadStep → Bool) (now : Nat)
    (files : List UploadFile) (names : List String) (st : State)
    (hlen : files.length = names.length) :
    upload fault now files names st =
      uploadLoop fault now (files.zip names) 0 st [] [] := by
  simp [upload, hlen]

theorem zip_map_snd_eq (files : List UploadFile) (names : List String)
    (hlen : files.length = names.length) :
    (files.zip names).map Prod.snd = names :=
  List.map_snd_zip files names (le_of_eq hlen.symm)

theorem length_zip_eq (files : List UploadFile) (names : List String)
    (hlen : files.length = names.length) :
    (files.zip names).length = files.length := by
  simp [List.length_zip, hlen]

/-- C3: for every successful Upload call with `n` payload/name pairs —
success being a run in which no store call rejects — exactly `n` metadata
records are appended (`mkRecords` generates one per name, in input order),
the trace contains exactly `n` blob writes, and the returned link sequence
is the input names mapped in order to their signed URLs, so it has length
`n` with link `i` generated for pair `i`. -/
theorem upload_success_counts (now : Nat) (files : List UploadFile)
    (names : List String) (st : State) (hlen : files.length = names.length) :
    let out := upload noUploadFault now files names st
    out.2.2 = .ok (names.map fun nm => getSignedUrl ("files/" ++ nm))
      ∧ out.1.records = st.records ++ mkRecords st.nextId now names
      ∧ (mkRecords st.nextId now names).length = names.length
      ∧ out.2.1.countP Ev.isBlobWrite = names.length
      ∧ (names.map fun nm => getSignedUrl ("files/" ++ nm)).length = names.length := by
  intro out
  have hfree : ∀ j, j < (files.zip names).length → ∀ s, noUploadFault (0 + j) s = false :=
    fun _ _ _ => rfl
  have hrun : out = ((files.zip names).foldl (commitPair now) st,
      commitTrace 0 (files.zip names),
      .ok ((files.zip names).map fun p => getSignedUrl ("files/" ++ p.2))) := by
    show upload noUploadFault now files names st = _
    rw [upload_eq_uploadLoop noUploadFault now files names st hlen,
      ← List.append_nil (files.zip names),
      uploadLoop_append noUploadFault now (files.zip names) [] 0 st [] [] hfree]
    simp [uploadLoop]
  have hsnd : ((files.zip names).map fun p => getSignedUrl ("files/" ++ p.2))
      = names.map fun nm => getSignedUrl ("files/" ++ nm) := by
    have : ((files.zip names).map fun p => getSignedUrl ("files/" ++ p.2))
        = ((files.zip names).map Prod.snd).map fun nm => getSignedUrl ("files/" ++ nm) := by
      simp [List.map_map]
    rw [this, zip_map_snd_eq files names hlen]
  refine ⟨?_, ?_, ?_, ?_, by simp⟩
  · rw [hrun]
    simpa using hsnd
  · rw [hrun]
    simp only
    rw [foldl_commitPair_records, zip_map_snd_eq files names hlen]
  · rw [mkRecords_length]
  · rw [hrun]
    simp only
    rw [commitTrace_countP_blobWrite, length_zip_eq files names hlen, hlen]

theorem take_zip_get_snd (files : List UploadFile) (names : List String) (k j : Nat)
    (hj : j < ((files.zip names).take k).length) (hj2 : j < names.length) :
    (((files.zip names).take k).get ⟨j, hj⟩).2 = names.get ⟨j, hj2⟩ := by
  simp [List.getElem_take, List.getElem_zip]

theorem take_zip_map_snd (files : List UploadFile) (names : List String) (k : Nat)
    (hlen : files.length = names.length) :
    ((files.zip names).take k).map Prod.snd = names.take k := by
  rw [List.map_take, zip_map_snd_eq files names hlen]

/-- C1: in an Upload batch whose pairs `0..k-1` are processed without fault
and whose pair `k` fails at one of its three store calls, the handler
answers with the server error, every pair before `k` is fully committed —
its blob write and record insertion appear in the trace, its metadata
record is in the final collection, and an object is present at its blob
path — exactly `k` records were appended in total, and no store event of
any pair after `k` ever happens. -/
theorem upload_partial_batch_failure (fault : Nat → UploadStep → Bool) (now : Nat)
    (files : List UploadFile) (names : List String) (st : State) (k : Nat)
    (hlen : files.length = names.length)
    (hk : k < files.length)
    (hpre : ∀ j, j < k → ∀ s, fault j s = false)
    (hfail : fault k .save = true ∨ fault k .sign = true ∨ fault k .addRecord = true) :
    let out := upload fault now files names st
    out.2.2 = .serverError
      ∧ (∀ j (hj : j < k),
          Ev.blobWrite j ("files/" ++ names.get ⟨j, by omega⟩) ∈ out.2.1
          ∧ Ev.recordAdd j (names.get ⟨j, by omega⟩) ∈ out.2.1
          ∧ (⟨st.nextId + j, names.get ⟨j, by omega⟩, now,
              getSignedUrl ("files/" ++ names.get ⟨j, by omega⟩)⟩ : FileRecord) ∈ out.1.records
          ∧ (getBlob out.1.blobs ("files/" ++ names.get ⟨j, by omega⟩)).isSome = true)
      ∧ out.1.records.length = st.records.length + k
      ∧ (∀ j, k < j → ∀ e ∈ out.2.1, e.uploadIdx ≠ some j) := by
  intro out
  have hkn : k < names.length := by omega
  have hkzip : k < (files.zip names).length := by
    rw [length_zip_eq files names hlen]
    exact hk
  have hkfront : ((files.zip names).take k).length = k := by
    simp only [List.length_take]
    omega
  have hfree : ∀ j, j < ((files.zip names).take k).length → ∀ s, fault (0 + j) s = false := by
    intro j hj s
    rw [hkfront] at hj
    simpa using hpre j hj s
  have hsplit0 := uploadLoop_append fault now ((files.zip names).take k)
    ((files.zip names).drop k) 0 st [] [] hfree
  rw [List.take_append_drop] at hsplit0
  have hsplit : upload fault now files names st =
      uploadLoop fault now ((files.zip names).drop k) k
        (((files.zip names).take k).foldl (commitPair now) st)
        (((files.zip names).take k).map fun p => getSignedUrl ("files/" ++ p.2))
        (commitTrace 0 ((files.zip names).take k)) := by
    rw [upload_eq_uploadLoop fault now files names st hlen, hsplit0, hkfront]
    simp
  have hdrop : (files.zip names).drop k
      = (files.zip names).get ⟨k, hkzip⟩ :: (files.zip names).drop (k + 1) := by
    simpa using List.drop_eq_getElem_cons hkzip
  rw [hdrop] at hsplit
  -- shared abbreviations for the committed part
  have hrecPre : (((files.zip names).take k).foldl (commitPair now) st).records
      = st.records ++ mkRecords st.nextId now (names.take k) := by
    rw [foldl_commitPair_records, take_zip_map_snd files names k hlen]
  have hlenTake : (names.take k).length = k := by
    simp only [List.length_take]
    omega
  -- the characterization of the run: trace of the committed part plus
  -- events of pair k only, records of the committed part, server error
  have hmain : ∃ extra : List Ev,
      out.1.records = (((files.zip names).take k).foldl (commitPair now) st).records
      ∧ out.2.1 = commitTrace 0 ((files.zip names).take k) ++ extra
      ∧ out.2.2 = .serverError
      ∧ (∀ e ∈ extra, e.uploadIdx = some k)
      ∧ (∀ q, (getBlob (((files.zip names).take k).foldl (commitPair now) st).blobs q).isSome = true →
          (getBlob out.1.blobs q).isSome = true) := by
    have hout : out = upload fault now files names st := rfl
    cases hsave : fault k .save with
    | true =>
      rw [uploadLoop, hsave] at hsplit
      simp only at hsplit
      refine ⟨[], ?_, ?_, ?_, by simp, ?_⟩ <;>
        simp [hout, hsplit]
    | false =>
      cases hsign : fault k .sign with
      | true =>
        rw [uploadLoop, hsave, hsign] at hsplit
        simp only at hsplit
        refine ⟨[.blobWrite k ("files/" ++ ((files.zip names).get ⟨k, hkzip⟩).2)],
          ?_, ?_, ?_, ?_, ?_⟩
        · simp [hout, hsplit]
        · simp [hout, hsplit]
        · simp [hout, hsplit]
        · intro e he
          simp at he
          simp [he, Ev.uploadIdx]
        · intro q hq
          rw [hout, hsplit]
          simpa using getBlob_setBlob_isSome _ _ q _ hq
      | false =>
        cases hadd : fault k .addRecord with
        | true =>
          rw [uploadLoop, hsave, hsign, hadd] at hsplit
          simp only at hsplit
          refine ⟨[.blobWrite k ("files/" ++ ((files.zip names).get ⟨k, hkzip⟩).2),
            .signLink k ("files/" ++ ((files.zip names).get ⟨k, hkzip⟩).2)],
            ?_, ?_, ?_, ?_, ?_⟩
          · simp [hout, hsplit]
          · simp [hout, hsplit]
          · simp [hout, hsplit]
          · intro e he
            simp at he
            rcases he with rfl | rfl <;> simp [Ev.uploadIdx]
          · intro q hq
            rw [hout, hsplit]
            simpa using getBlob_setBlob_isSome _ _ q _ hq
        | false =>
          rcases hfail with h | h | h
          · rw [hsave] at h
            exact absurd h (by simp)
          · rw [hsign] at h
            exact absurd h (by simp)
          · rw [hadd] at h
            exact absurd h (by simp)
  obtain ⟨extra, hrec, htr, hres, hextra, hblob⟩ := hmain
  refine ⟨hres, ?_, ?_, ?_⟩
  · intro j hj
    have hjfront : j < ((files.zip names).take k).length := by omega
    have hjn : j < names.length := by omega
    have hpath : (((files.zip names).take k).get ⟨j, hjfront⟩).2 = names.get ⟨j, hjn⟩ :=
      take_zip_get_snd files names k j hjfront hjn
    have hmem := commitTrace_mem 0 j ((files.zip names).take k) hjfront
    rw [hpath] at hmem
    simp only [Nat.zero_add] at hmem
    refine ⟨?_, ?_, ?_, ?_⟩
    · rw [htr]
      exact List.mem_append_left extra hmem.1
    · rw [htr]
      exact List.mem_append_left extra hmem.2
    · rw [hrec, hrecPre]
      have hjtake : j < (names.take k).length := by omega
      have := mkRecords_mem now (names.take k) st.nextId j hjtake
      have hgt : (names.take k).get ⟨j, hjtake⟩ = names.get ⟨j, hjn⟩ := by
        simp [List.getElem_take]
      rw [hgt] at this
      exact List.mem_append_right st.records this
    · apply hblob
      have := getBlob_foldl_commitPair_pair now ((files.zip names).take k) j hjfront st
      rw [hpath] at this
      exact this
  · rw [hrec, hrecPre]
    simp [mkRecords_length, hlenTake]
  · intro j hkj e he hidx
    rw [htr] at he
    rcases List.mem_append.mp he with hin | hin
    · obtain ⟨j0, hj0, hj0idx⟩ := commitTrace_uploadIdx 0 ((files.zip names).take k) e hin
      rw [hkfront] at hj0
      rw [hidx] at hj0idx
      have : j = j0 := by
        simpa using hj0idx
      omega
    · have := hextra e hin
      rw [hidx] at this
      have : j = k := by simpa using this
      omega

/-- Closed instance of `upload_partial_batch_failure`: a three-pair batch in
which pair 1's blob write rejects; pair 0 commits, the response is the
server error, and pair 2 is never attempted. -/
theorem upload_partial_batch_failure_witness :
    (let out := upload (fun i s => decide (i = 1 ∧ s = UploadStep.save)) 4
      [⟨[1], "t/a"⟩, ⟨[2], "t/b"⟩, ⟨[3], "t/c"⟩] ["a", "b", "c"] ⟨[], [], 0, 0⟩
    out.2.2 = .serverError
      ∧ (∀ j (hj : j < 1),
          Ev.blobWrite j ("files/" ++ (["a", "b", "c"] : List String).get ⟨j, by simp only [List.length_cons, List.length_nil]; omega⟩) ∈ out.2.1
          ∧ Ev.recordAdd j ((["a", "b", "c"] : List String).get ⟨j, by simp only [List.length_cons, List.length_nil]; omega⟩) ∈ out.2.1
          ∧ (⟨0 + j, (["a", "b", "c"] : List String).get ⟨j, by simp only [List.length_cons, List.length_nil]; omega⟩, 4,
              getSignedUrl ("files/" ++ (["a", "b", "c"] : List String).get ⟨j, by simp only [List.length_cons, List.length_nil]; omega⟩)⟩ : FileRecord)
              ∈ out.1.records
          ∧ (getBlob out.1.blobs
              ("files/" ++ (["a", "b", "c"] : List String).get ⟨j, by simp only [List.length_cons, List.length_nil]; omega⟩)).isSome = true)
      ∧ out.1.records.length = 0 + 1
      ∧ (∀ j, 1 < j → ∀ e ∈ out.2.1, e.uploadIdx ≠ some j)) :=
  upload_partial_batch_failure (fun i s => decide (i = 1 ∧ s = UploadStep.save)) 4
    [⟨[1], "t/a"⟩, ⟨[2], "t/b"⟩, ⟨[3], "t/c"⟩] ["a", "b", "c"] ⟨[], [], 0, 0⟩ 1
    rfl (by simp only [List.length_cons, List.length_nil]; omega)
    (by
      intro j hj s
      have hj0 : j = 0 := by omega
      subst hj0
      cases s <;> rfl)
    (Or.inl (by decide))

/-- Closed instance of `upload_success_counts`: a two-file batch against the
empty state, with every hypothesis discharged on concrete input. -/
theorem upload_success_counts_witness :
    let out := upload noUploadFault 7
      [⟨[1, 2], "image/png"⟩, ⟨[3], "text/plain"⟩] ["a.png", "b.txt"] ⟨[], [], 0, 0⟩
    out.2.2 = .ok (["a.png", "b.txt"].map fun nm => getSignedUrl ("files/" ++ nm))
      ∧ out.1.records = [] ++ mkRecords 0 7 ["a.png", "b.txt"]
      ∧ (mkRecords 0 7 ["a.png", "b.txt"]).length = (["a.png", "b.txt"] : List String).length
      ∧ out.2.1.countP Ev.isBlobWrite = (["a.png", "b.txt"] : List String).length
      ∧ ((["a.png", "b.txt"] : List String).map fun nm =>
          getSignedUrl ("files/" ++ nm)).length = (["a.png", "b.txt"] : List String).length :=
  upload_success_counts 7 [⟨[1, 2], "image/png"⟩, ⟨[3], "text/plain"⟩]
    ["a.png", "b.txt"] ⟨[], [], 0, 0⟩ rfl

/-- C2 (amended): the validation check rejects with 400 and performs no
store operation exactly when the payload count differs from the name count;
a batch in which both sequences are empty has equal counts, passes the
check (an empty JavaScript array is truthy, so `!files` and `!fileNames`
do not fire), and succeeds with an empty link list and no side effects. -/
theorem upload_validation (fault : Nat → UploadStep → Bool) (now : Nat)
    (files : List UploadFile) (names : List String) (st : State) :
    (files.length ≠ names.length →
      upload fault now files names st = (st, [], .badRequest))
    ∧ upload fault now [] [] st = (st, [], .ok []) := by
  constructor
  · intro h
    simp [upload, h]
  · simp [upload, uploadLoop]

/-- C2 counterexample: the empty batch violates the claimed precondition
(both sequences must be non-empty), yet the handler does not answer 400 —
it answers 200 with an empty `fileURLs` array. -/
theorem upload_empty_batch_not_rejected :
    upload noUploadFault 0 ([] : List UploadFile) ([] : List String) ⟨[], [], 0, 0⟩
        = (⟨[], [], 0, 0⟩, [], .ok [])
      ∧ UploadResult.ok [] ≠ UploadResult.badRequest := by
  exact ⟨by decide, by decide⟩

/-- Closed instance of `upload_validation` at a concrete mismatched batch
and the concrete empty batch. -/
theorem upload_validation_witness :
    upload noUploadFault 0 [⟨[1], "t/a"⟩] ([] : List String) ⟨[], [], 0, 0⟩
        = (⟨[], [], 0, 0⟩, [], .badRequest)
      ∧ upload noUploadFault 0 [] [] ⟨[], [], 0, 0⟩ = (⟨[], [], 0, 0⟩, [], .ok []) :=
  ⟨(upload_validation noUploadFault 0 [⟨[1], "t/a"⟩] [] ⟨[], [], 0, 0⟩).1 (by decide),
   (upload_validation noUploadFault 0 [] [] ⟨[], [], 0, 0⟩).2⟩

/-- C4: when the record exists and its blob exists, the delete handler
deletes the blob strictly before the record — the first store event is the
blob delete, and on full success the record delete follows it.  If the
record delete then fails, the final state has the blob gone and the record
still present, with no compensating rollback, and the response is the
server error. -/
theorem delete_blob_before_record (fault : DeleteStep → Bool) (st : State) (id : Nat)
    (r : FileRecord)
    (hr : st.records.find? (fun x => x.id == id) = some r)
    (hb : (getBlob st.blobs ("files/" ++ r.fileName)).isSome = true)
    (hf : fault .blobDel = false) :
    let out := deleteFile fault st id
    out.2.1.head? = some (.blobDelete ("files/" ++ r.fileName))
      ∧ (fault .recDel = false →
          out.2.1 = [.blobDelete ("files/" ++ r.fileName), .recordDelete id])
      ∧ (fault .recDel = true →
          out = ({ st with blobs := removeBlob st.blobs ("files/" ++ r.fileName) },
                 [.blobDelete ("files/" ++ r.fileName)], .serverError)
          ∧ getBlob out.1.blobs ("files/" ++ r.fileName) = none
          ∧ r ∈ out.1.records) := by
  intro out
  obtain ⟨b, hbe⟩ := Option.isSome_iff_exists.mp hb
  have hout : out = deleteFile fault st id := rfl
  cases hrd : fault .recDel with
  | false =>
    have hrun : out = deleteFile fault st id := rfl
    rw [hout]
    simp only [deleteFile, hr, hf, hbe, hrd]
    refine ⟨by simp, fun _ => by simp, fun hcontra => by simp at hcontra⟩
  | true =>
    rw [hout]
    simp only [deleteFile, hr, hf, hbe, hrd]
    refine ⟨by simp, fun hcontra => by simp at hcontra, fun _ => ?_⟩
    refine ⟨by simp, ?_, ?_⟩
    · simp [getBlob_removeBlob]
    · exact List.mem_of_find?_eq_some hr

/-- Closed instance of `delete_blob_before_record`: one record, one blob,
the record delete forced to fail. -/
theorem delete_blob_before_record_witness :
    (let out := deleteFile (fun s => decide (s = DeleteStep.recDel))
      ⟨[("files/x.bin", ⟨[1], "t/p", some 1⟩)], [⟨7, "x.bin", 3, "u"⟩], 2, 9⟩ 7
    out.2.1.head? = some (.blobDelete ("files/" ++ "x.bin"))
      ∧ ((fun s => decide (s = DeleteStep.recDel)) DeleteStep.recDel = false →
          out.2.1 = [.blobDelete ("files/" ++ "x.bin"), .recordDelete 7])
      ∧ ((fun s => decide (s = DeleteStep.recDel)) DeleteStep.recDel = true →
          out = ({ blobs := removeBlob [("files/x.bin", ⟨[1], "t/p", some 1⟩)] ("files/" ++ "x.bin"),
                   records := [⟨7, "x.bin", 3, "u"⟩], downloads := 2, nextId := 9 },
                 [.blobDelete ("files/" ++ "x.bin")], .serverError)
          ∧ getBlob out.1.blobs ("files/" ++ "x.bin") = none
          ∧ (⟨7, "x.bin", 3, "u"⟩ : FileRecord) ∈ out.1.records)) :=
  delete_blob_before_record (fun s => decide (s = DeleteStep.recDel))
    ⟨[("files/x.bin", ⟨[1], "t/p", some 1⟩)], [⟨7, "x.bin", 3, "u"⟩], 2, 9⟩ 7
    ⟨7, "x.bin", 3, "u"⟩ (by decide) (by decide) (by decide)

/-- C5: a fault-free Delete on an existing record with an existing blob
succeeds and leaves neither the blob at the record's path nor any record
with that id, so the List result has no entry with that id; Delete on an id
with no record answers 404 and changes nothing. -/
theorem delete_success_removes (st : State) (id : Nat) :
    (∀ r : FileRecord, st.records.find? (fun x => x.id == id) = some r →
      (getBlob st.blobs ("files/" ++ r.fileName)).isSome = true →
      let out := deleteFile (fun _ => false) st id
      out.2.2 = .ok
      ∧ getBlob out.1.blobs ("files/" ++ r.fileName) = none
      ∧ (∀ r2 ∈ out.1.records, r2.id ≠ id)
      ∧ (∀ e ∈ listFiles out.1, e.id ≠ id))
    ∧ (st.records.find? (fun x => x.id == id) = none →
        deleteFile (fun _ => false) st id = (st, [], .notFound)) := by
  constructor
  · intro r hr hb out
    obtain ⟨b, hbe⟩ := Option.isSome_iff_exists.mp hb
    have hout : out = deleteFile (fun _ => false) st id := rfl
    rw [hout]
    simp only [deleteFile, hr, hbe]
    refine ⟨by simp, by simp [getBlob_removeBlob], ?_, ?_⟩
    · intro r2 hr2
      simp at hr2
      exact hr2.2
    · intro e he
      simp [listFiles] at he
      obtain ⟨r2, hr2, rfl⟩ := he
      exact hr2.2
  · intro h
    simp [deleteFile, h]

/-- Closed instance of `delete_success_removes`: both branches exercised on
a one-record state. -/
theorem delete_success_removes_witness :
    ((deleteFile (fun _ => false)
        ⟨[("files/x.bin", ⟨[1], "t/p", some 1⟩)], [⟨7, "x.bin", 3, "u"⟩], 2, 9⟩ 7).2.2
      = DeleteResult.ok)
    ∧ deleteFile (fun _ => false)
        ⟨[("files/x.bin", ⟨[1], "t/p", some 1⟩)], [⟨7, "x.bin", 3, "u"⟩], 2, 9⟩ 8
      = (⟨[("files/x.bin", ⟨[1], "t/p", some 1⟩)], [⟨7, "x.bin", 3, "u"⟩], 2, 9⟩, [], .notFound) :=
  ⟨((delete_success_removes
      ⟨[("files/x.bin", ⟨[1], "t/p", some 1⟩)], [⟨7, "x.bin", 3, "u"⟩], 2, 9⟩ 7).1
      ⟨7, "x.bin", 3, "u"⟩ (by decide) (by decide)).1,
   (delete_success_removes
      ⟨[("files/x.bin", ⟨[1], "t/p", some 1⟩)], [⟨7, "x.bin", 3, "u"⟩], 2, 9⟩ 8).2 (by decide)⟩

/-- C10: when the record exists but no object is stored at its blob path,
`fileRef.delete()` rejects (Cloud Storage answers 404 for a delete of a
missing object), so the handler answers 500 with both stores untouched —
the dangling record survives and can never be removed through this
endpoint. -/
theorem delete_dangling_record_stuck (fault : DeleteStep → Bool) (st : State) (id : Nat)
    (r : FileRecord)
    (hr : st.records.find? (fun x => x.id == id) = some r)
    (hb : getBlob st.blobs ("files/" ++ r.fileName) = none) :
    deleteFile fault st id = (st, [], .serverError)
      ∧ r ∈ (deleteFile fault st id).1.records := by
  have h1 : deleteFile fault st id = (st, [], .serverError) := by
    simp [deleteFile, hr, hb]
  refine ⟨h1, ?_⟩
  rw [h1]
  exact List.mem_of_find?_eq_some hr

/-- Closed instance of `delete_dangling_record_stuck`: a record whose blob
is missing, under a fault-free oracle. -/
theorem delete_dangling_record_stuck_witness :
    deleteFile (fun _ => false) ⟨[], [⟨7, "x.bin", 3, "u"⟩], 2, 9⟩ 7
        = (⟨[], [⟨7, "x.bin", 3, "u"⟩], 2, 9⟩, [], .serverError)
      ∧ (⟨7, "x.bin", 3, "u"⟩ : FileRecord)
          ∈ (deleteFile (fun _ => false) ⟨[], [⟨7, "x.bin", 3, "u"⟩], 2, 9⟩ 7).1.records :=
  delete_dangling_record_stuck (fun _ => false) ⟨[], [⟨7, "x.bin", 3, "u"⟩], 2, 9⟩ 7
    ⟨7, "x.bin", 3, "u"⟩ (by decide) (by decide)

/-! The statistics scan. -/

theorem statsLoop_eq (fault : Nat → Bool) (blobs : List (String × Blob)) :
    ∀ i acc : Nat, statsLoop fault blobs i acc
      = acc + ((List.enumFrom i blobs).filterMap fun p =>
          if fault p.1 then none else p.2.2.size).sum := by
  induction blobs with
  | nil =>
    intro i acc
    simp [statsLoop, List.enumFrom]
  | cons b rest ih =>
    intro i acc
    obtain ⟨path, blob⟩ := b
    cases hf : fault i with
    | true => simp [statsLoop, hf, List.enumFrom, ih]
    | false =>
      cases hs : blob.size with
      | some s =>
        simp only [statsLoop, hf, Bool.false_eq_true, if_false, hs, List.enumFrom,
          List.filterMap_cons, List.sum_cons]
        rw [ih]
        omega
      | none =>
        simp [statsLoop, hf, hs, List.enumFrom, ih]

theorem toFixed2GB_eq_round (b : Nat) :
    (toFixed2GB b : ℤ) = round ((b : ℚ) * 100 / (1024 * 1024 * 1024)) := by
  rw [round_eq]
  have h : (b : ℚ) * 100 / (1024 * 1024 * 1024) + 1 / 2
      = ((b * 200 + 1024 * 1024 * 1024 : ℕ) : ℚ) / ((2 * (1024 * 1024 * 1024) : ℕ) : ℚ) := by
    push_cast
    ring
  rw [h, Rat.floor_natCast_div_natCast]
  rfl

/-- C6: a statistics call in which every metadata fetch succeeds reports
`totalDownloads` equal to the size of the `downloads` collection,
`totalFiles` equal to the number of objects in the bucket listing (not the
number of metadata records), and a storage figure equal to the accumulated
blob sizes divided by `2^30` and rounded to two decimal places — the
reported count of hundredths of a gigabyte is exactly the nearest integer
to `bytes * 100 / 2^30`. -/
theorem statistics_success_fields (st : State) :
    statistics (fun _ => false) st
      = ⟨st.downloads, toFixed2GB ((st.blobs.filterMap fun p => p.2.size).sum),
         st.blobs.length⟩
    ∧ ((toFixed2GB ((st.blobs.filterMap fun p => p.2.size).sum) : ℤ)
        = round (((((st.blobs.filterMap fun p => p.2.size).sum : ℕ) : ℚ) * 100)
            / (1024 * 1024 * 1024))) := by
  constructor
  · have hbytes : statsLoop (fun _ => false) st.blobs 0 0
        = (st.blobs.filterMap fun p => p.2.size).sum := by
      rw [statsLoop_eq]
      have h1 : ((List.enumFrom 0 st.blobs).filterMap fun p =>
          if (fun _ : Nat => false) p.1 then none else p.2.2.size)
          = (List.enumFrom 0 st.blobs).filterMap fun p => p.2.2.size := by
        simp
      rw [h1]
      have h2 : ((List.enumFrom 0 st.blobs).filterMap fun p => p.2.2.size)
          = List.filterMap (fun b : String × Blob => b.2.size)
              ((List.enumFrom 0 st.blobs).map Prod.snd) := by
        rw [List.filterMap_map]
        rfl
      rw [h2, List.enumFrom_map_snd]
      simp
    simp [statistics, hbytes]
  · exact toFixed2GB_eq_round _

/-- C7: per-object failures in the statistics scan are recovered locally:
whatever the set of objects whose metadata fetch rejects or whose metadata
lacks a size, each such object contributes zero bytes, the scan continues
over all remaining objects (the accumulated figure is the sum over exactly
the healthy objects, wherever they sit in the listing), and the call still
produces a full result — `totalDownloads` and `totalFiles` are unaffected
and no error is surfaced. -/
theorem statistics_skips_bad_objects (fault : Nat → Bool) (st : State) :
    statistics fault st
      = ⟨st.downloads, toFixed2GB (statsSpecBytes fault st.blobs), st.blobs.length⟩ := by
  simp [statistics, statsSpecBytes, List.enum, statsLoop_eq]

/-! The format classifier and the file-formats scan. -/

/-- C8 (amended): the classifier is a pure function of the content-type;
a content-type present in the table with a non-empty label yields that
label; a content-type absent from the table yields `split("/")[1]`, which
is the segment between the first and second `/` when the string contains a
`/` and is no label at all (`undefined`) when it does not. -/
theorem classifyFormat_cases (table : List (String × String)) (ct : String) :
    (∀ l, lookupTable table ct = some l → l ≠ "" → classifyFormat table ct = some l)
    ∧ (lookupTable table ct = none →
        classifyFormat table ct = (jsSplit '/' ct).get? 1)
    ∧ (lookupTable table ct = none → 2 ≤ (jsSplit '/' ct).length →
        ∃ l, classifyFormat table ct = some l)
    ∧ (lookupTable table ct = none → (jsSplit '/' ct).length ≤ 1 →
        classifyFormat table ct = none) := by
  refine ⟨?_, ?_, ?_, ?_⟩
  · intro l hl hne
    simp [classifyFormat, hl, hne]
  · intro h
    simp [classifyFormat, h]
  · intro h hlen2
    have h1 : 1 < (jsSplit '/' ct).length := hlen2
    simp only [classifyFormat, h]
    exact ⟨_, List.get?_eq_get h1⟩
  · intro h hlen1
    simp only [classifyFormat, h]
    exact List.get?_eq_none.mpr hlen1

/-- C8 counterexample: `"data"` is not a key of the lookup table, contains
no `/`, and the classifier yields no label for it — the `||` fallback
`"data".split("/")[1]` is `undefined`. -/
theorem classifyFormat_no_label_without_slash :
    lookupTable mimeTypeMapping "data" = none
      ∧ classifyFormat mimeTypeMapping "data" = none := by
  exact ⟨by decide, by decide⟩

/-- Closed instance of `classifyFormat_cases`: a mapped type, an unmapped
type with a subtype, and an unmapped type without a separator. -/
theorem classifyFormat_cases_witness :
    classifyFormat mimeTypeMapping "application/pdf" = some "pdf"
      ∧ classifyFormat mimeTypeMapping "application/x-unknown" = some "x-unknown"
      ∧ classifyFormat mimeTypeMapping "data" = none :=
  ⟨(classifyFormat_cases mimeTypeMapping "application/pdf").1 "pdf" (by decide) (by decide),
   by
    have := (classifyFormat_cases mimeTypeMapping "application/x-unknown").2.1 (by decide)
    rw [this]
    decide,
   (classifyFormat_cases mimeTypeMapping "data").2.2.2 (by decide) (by decide)⟩

theorem fileFormatsLoop_serverError_iff (fault : Nat → Bool)
    (table : List (String × String)) (blobs : List (String × Blob)) :
    ∀ (i : Nat) (acc : List (Option String × Nat)),
      (fileFormatsLoop fault table blobs i acc = .serverError
        ↔ ∃ j, j < blobs.length ∧ fault (i + j) = true) := by
  induction blobs with
  | nil =>
    intro i acc
    simp [fileFormatsLoop]
  | cons b rest ih =>
    intro i acc
    obtain ⟨path, blob⟩ := b
    cases hf : fault i with
    | true =>
      have hstep : fileFormatsLoop fault table ((path, blob) :: rest) i acc
          = .serverError := by
        simp [fileFormatsLoop, hf]
      rw [hstep]
      constructor
      · intro _
        exact ⟨0, by simp, by simpa using hf⟩
      · intro _
        rfl
    | false =>
      have hshift : (∃ j, j < rest.length ∧ fault (i + 1 + j) = true)
          ↔ ∃ j, j < (rest.length + 1) ∧ fault (i + j) = true := by
        constructor
        · rintro ⟨j, hj, hfj⟩
          exact ⟨j + 1, by omega, by rw [show i + (j + 1) = i + 1 + j by omega]; exact hfj⟩
        · rintro ⟨j, hj, hfj⟩
          cases j with
          | zero =>
            rw [Nat.add_zero] at hfj
            rw [hf] at hfj
            exact absurd hfj (by simp)
          | succ j' =>
            exact ⟨j', by omega, by rw [show i + 1 + j' = i + (j' + 1) by omega]; exact hfj⟩
      have hstep : fileFormatsLoop fault table ((path, blob) :: rest) i acc
          = fileFormatsLoop fault table rest (i + 1)
              (if blob.contentType = "" then acc
               else bumpFormat acc (classifyFormat table blob.contentType)) := by
        by_cases hct : blob.contentType = "" <;> simp [fileFormatsLoop, hf, hct]
      rw [hstep, ih]
      simpa using hshift

/-- C9: the file-formats scan has no per-object recovery — the handler
answers with the server error, returning no histogram at all, exactly when
the metadata fetch of at least one listed object rejects; counts already
accumulated for earlier objects are discarded with it. -/
theorem fileFormats_fails_on_any_object (fault : Nat → Bool)
    (table : List (String × String)) (st : State) :
    fileFormats fault table st = .serverError
      ↔ ∃ i, i < st.blobs.length ∧ fault i = true := by
  have := fileFormatsLoop_serverError_iff fault table st.blobs 0 []
  simpa [fileFormats] using this

/-- Closed instance of `fileFormats_fails_on_any_object`: with one healthy
object and one whose metadata fetch rejects, the whole call fails; with no
fault it returns the histogram. -/
theorem fileFormats_fails_on_any_object_witness :
    fileFormats (fun i => decide (i = 1)) mimeTypeMapping
        ⟨[("files/a", ⟨[1], "image/png", some 1⟩), ("files/b", ⟨[2], "image/png", some 1⟩)],
         [], 0, 0⟩
      = .serverError :=
  (fileFormats_fails_on_any_object (fun i => decide (i = 1)) mimeTypeMapping
      ⟨[("files/a", ⟨[1], "image/png", some 1⟩), ("files/b", ⟨[2], "image/png", some 1⟩)],
       [], 0, 0⟩).mpr
    ⟨1, by decide, by decide⟩

end FileServer
